import Mathlib

/-!
Verification of the ChaseTag environment (`myosuite/envs/myo/myochallenge/chasetag_v0.py`).

The opponent controller, its reset logic, the terrain generator's patch
computations and the episode reward/termination logic are embedded as Lean
functions over `ℝ`.  Randomness is made explicit: every function that consumes
a random draw in the Python code takes the realised draw (or a list of draws)
as an argument, with draws coming from the episode-scoped generator
(`self.np_random` / `self.rng`) and from the process-wide numpy generator
(`np.random`) kept in separate arguments.
-/

noncomputable section

namespace ChaseTag

open Real

/-- Planar pose of the opponent mocap body: x, y and heading angle,
as returned by `get_opponent_pose`. -/
structure Pose where
  x : ℝ
  y : ℝ
  angle : ℝ

/-- Numpy-style clip: `np.clip(v, lo, hi) = max lo (min v hi)` (for `lo ≤ hi`). -/
def clip (v lo hi : ℝ) : ℝ := max lo (min v hi)

/-- The opponent's fixed integration timestep `self.dt = 0.01`. -/
def dt : ℝ := 0.01

/-- Embedding of `ChallengeOpponent.move_opponent` acting on a two-component
velocity command `(lin, ang)`: the linear component is replaced by its absolute
value, both components are clipped to `[-1, 1]`, the position is translated by
`-dt · l · (cos (θ + π/2), sin (θ + π/2))`, the heading is advanced by
`dt · a`, and finally the position is clipped to `[-5.5, 5.5]²`. -/
def moveOpponent (pose : Pose) (lin ang : ℝ) : Pose :=
  let l := clip |lin| (-1) 1
  let a := clip ang (-1) 1
  let xVel := l * Real.cos (pose.angle + 0.5 * π)
  let yVel := l * Real.sin (pose.angle + 0.5 * π)
  { x := clip (pose.x - dt * xVel) (-5.5) 5.5
  , y := clip (pose.y - dt * yVel) (-5.5) 5.5
  , angle := pose.angle + dt * a }

theorem clip_le {v lo hi : ℝ} (h : lo ≤ hi) : clip v lo hi ≤ hi :=
  max_le h (min_le_right v hi)

theorem le_clip (v lo hi : ℝ) : lo ≤ clip v lo hi :=
  le_max_left lo (min v hi)

/-- C1: after every call to `move_opponent`, for any starting pose and any
velocity command, the opponent's planar position lies within `[-5.5, 5.5]²`,
because the position is hard-clamped after the integration step. -/
theorem move_opponent_position_clamped (pose : Pose) (lin ang : ℝ) :
    -5.5 ≤ (moveOpponent pose lin ang).x ∧ (moveOpponent pose lin ang).x ≤ 5.5 ∧
    -5.5 ≤ (moveOpponent pose lin ang).y ∧ (moveOpponent pose lin ang).y ≤ 5.5 := by
  refine ⟨le_clip _ _ _, clip_le (by norm_num), le_clip _ _ _, clip_le (by norm_num)⟩

/-- C3 (amended): for commands whose linear component already lies in `[0, 1]`
and whose angular component lies in `[-1, 1]` (the ranges the integrator's
abs/clip preprocessing leaves unchanged), the heading is advanced by
`dt · ang` and, before the position clamp, the position is translated by
`-dt · lin` times the forward vector `(cos (θ + π/2), sin (θ + π/2))`
determined by the current heading `θ`. -/
theorem move_opponent_update_eq (pose : Pose) (lin ang : ℝ)
    (h0 : 0 ≤ lin) (h1 : lin ≤ 1) (h2 : -1 ≤ ang) (h3 : ang ≤ 1) :
    moveOpponent pose lin ang =
      { x := clip (pose.x - dt * (lin * Real.cos (pose.angle + 0.5 * π))) (-5.5) 5.5
      , y := clip (pose.y - dt * (lin * Real.sin (pose.angle + 0.5 * π))) (-5.5) 5.5
      , angle := pose.angle + dt * ang } := by
  have habs : |lin| = lin := abs_of_nonneg h0
  have hl : clip |lin| (-1) 1 = lin := by
    rw [habs]; unfold clip
    rw [min_eq_left h1, max_eq_right (by linarith)]
  have ha : clip ang (-1) 1 = ang := by
    unfold clip
    rw [min_eq_left h3, max_eq_right h2]
  unfold moveOpponent
  rw [hl, ha]

/-- C3 counterexample: with command `(0, 2)` from the zero pose, the code
advances the heading by `dt · 1` (the angular component is clipped to `[-1,1]`),
not by `dt · 2` as the unrestricted claim would require. -/
theorem move_opponent_update_cex :
    (moveOpponent ⟨0, 0, 0⟩ 0 2).angle ≠ 0 + dt * 2 := by
  unfold moveOpponent clip dt
  norm_num

/-- Witness for C3's amended theorem at the concrete pose `(1, 2, 3)` with
command `(1, -1)`. -/
theorem move_opponent_update_eq_witness :
    (0 : ℝ) ≤ 1 ∧ (1 : ℝ) ≤ 1 ∧ (-1 : ℝ) ≤ -1 ∧ (-1 : ℝ) ≤ 1 ∧
    moveOpponent ⟨1, 2, 3⟩ 1 (-1) =
      { x := clip (1 - dt * (1 * Real.cos ((3 : ℝ) + 0.5 * π))) (-5.5) 5.5
      , y := clip (2 - dt * (1 * Real.sin ((3 : ℝ) + 0.5 * π))) (-5.5) 5.5
      , angle := 3 + dt * (-1) } :=
  ⟨by norm_num, by norm_num, by norm_num, by norm_num,
    move_opponent_update_eq ⟨1, 2, 3⟩ 1 (-1) (by norm_num) (by norm_num)
      (by norm_num) (by norm_num)⟩

/-- The value of the string attribute `self.opponent_policy`: the three strings
ever assigned by `sample_opponent_policy`, plus `unrecognized` standing for any
other string value. -/
inductive OppPolicy where
  | static_stationary
  | stationary
  | random
  | unrecognized
deriving DecidableEq

/-- Embedding of `ChallengeOpponent.sample_opponent_policy`: `r` is the draw
`self.rng.uniform()` and `prev` the value of the `opponent_policy` attribute
before the call (`none` when it was never assigned).  When `r` falls beyond
`p0 + p1 + p2`, no branch fires and the attribute keeps its previous value. -/
def sampleOpponentPolicy (p0 p1 p2 r : ℝ) (prev : Option OppPolicy) :
    Option OppPolicy :=
  if r < p0 then some .static_stationary
  else if r < p0 + p1 then some .stationary
  else if r < p0 + p1 + p2 then some .random
  else prev

/-- Euclidean planar distance `np.linalg.norm(pose[:2] - root[:2])`. -/
def planarDist (x y rx ry : ℝ) : ℝ := Real.sqrt ((x - rx) ^ 2 + (y - ry) ^ 2)

/-- The spawn re-sampling loop of `reset_opponent`: successive draws from
`draws` (each one a pose sampled uniformly in `[-5,5]×[-5,5]×[-2π,2π]`) are
consumed until one lies at distance `≥ minD` from the agent root `(rx, ry)`;
`none` means the supplied prefix of the random stream was exhausted first. -/
def spawnLoop (minD rx ry : ℝ) : List Pose → Option Pose
  | [] => none
  | p :: rest =>
    if planarDist p.x p.y rx ry < minD then spawnLoop minD rx ry rest
    else some p

/-- Embedding of the pose-placement part of `ChallengeOpponent.reset_opponent`
(after `sample_opponent_policy` has run): `dist` starts at `0`, so the `while`
loop body runs iff `0 < minD`; when it never runs the local `pose` is unbound
and the subsequent reads raise `NameError` (modelled as `none`); reading an
unset `opponent_policy` attribute raises `AttributeError` (also `none`);
otherwise the first accepted draw is kept, overridden to `(0, -5, 0)` when the
policy is `static_stationary`. -/
def resetOpponentPose (policy : Option OppPolicy) (minD rx ry : ℝ)
    (draws : List Pose) : Option Pose :=
  if 0 < minD then
    match spawnLoop minD rx ry draws, policy with
    | some p, some q =>
        some (if q = OppPolicy.static_stationary then ⟨0, -5, 0⟩ else p)
    | _, _ => none
  else none

/-- Embedding of `ChallengeOpponent.reset_opponent`: the policy is sampled
first (from the draw `r` of the episode generator), then the spawn pose is
placed using that freshly sampled policy.  Returns the new value of the
`opponent_policy` attribute together with the pose that gets written by
`set_opponent_pose` (`none` when an exception interrupts the call). -/
def resetOpponent (p0 p1 p2 r : ℝ) (prev : Option OppPolicy) (minD rx ry : ℝ)
    (draws : List Pose) : Option OppPolicy × Option Pose :=
  let pol := sampleOpponentPolicy p0 p1 p2 r prev
  (pol, resetOpponentPose pol minD rx ry draws)

theorem spawnLoop_spec {minD rx ry : ℝ} {draws : List Pose} {p : Pose}
    (h : spawnLoop minD rx ry draws = some p) :
    minD ≤ planarDist p.x p.y rx ry := by
  induction draws with
  | nil => simp [spawnLoop] at h
  | cons q rest ih =>
    rw [spawnLoop] at h
    by_cases hq : planarDist q.x q.y rx ry < minD
    · rw [if_pos hq] at h; exact ih h
    · rw [if_neg hq] at h
      cases h
      exact le_of_not_lt hq

/-- C4: whenever `reset_opponent` completes with a sampled policy other than
`static_stationary`, the planar distance between the spawn pose it sets and
the agent root is at least `min_spawn_distance` (the accepted draw is the
first one the re-sampling loop found at sufficient distance). -/
theorem reset_opponent_spawn_distance (q : OppPolicy) (minD rx ry : ℝ)
    (draws : List Pose) (p : Pose) (hq : q ≠ OppPolicy.static_stationary)
    (h : resetOpponentPose (some q) minD rx ry draws = some p) :
    minD ≤ planarDist p.x p.y rx ry := by
  unfold resetOpponentPose at h
  by_cases hm : 0 < minD
  · rw [if_pos hm] at h
    rcases hl : spawnLoop minD rx ry draws with _ | p'
    · rw [hl] at h; cases h
    · rw [hl] at h
      dsimp only at h
      rw [if_neg hq] at h
      cases h
      exact spawnLoop_spec hl
  · rw [if_neg hm] at h; cases h

theorem planarDist_three_four : planarDist 3 4 0 0 = 5 := by
  unfold planarDist
  rw [show ((3 : ℝ) - 0) ^ 2 + ((4 : ℝ) - 0) ^ 2 = 5 ^ 2 by norm_num]
  exact Real.sqrt_sq (by norm_num)

theorem spawnLoop_concrete :
    spawnLoop 1 0 0 [⟨3, 4, 0⟩] = some ⟨3, 4, 0⟩ := by
  rw [spawnLoop]
  rw [show (Pose.mk 3 4 0).x = 3 from rfl, show (Pose.mk 3 4 0).y = 4 from rfl,
    planarDist_three_four]
  rw [if_neg (by norm_num)]

/-- Witness for C4 at a concrete reset: one draw at distance 5 from the
origin, `min_spawn_distance = 1`, policy `stationary`. -/
theorem reset_opponent_spawn_distance_witness :
    OppPolicy.stationary ≠ OppPolicy.static_stationary ∧
    (1 : ℝ) ≤ planarDist 3 4 0 0 := by
  have heval : resetOpponentPose (some .stationary) 1 0 0 [⟨3, 4, 0⟩] =
      some ⟨3, 4, 0⟩ := by
    unfold resetOpponentPose
    rw [if_pos (by norm_num : (0 : ℝ) < 1), spawnLoop_concrete]
    rfl
  exact ⟨by decide,
    reset_opponent_spawn_distance .stationary 1 0 0 [⟨3, 4, 0⟩] ⟨3, 4, 0⟩
      (by decide) heval⟩

/-- C5: whenever the sampled policy is `static_stationary` and
`reset_opponent` completes, the pose it writes is exactly `(0, -5, 0)`,
for every `min_spawn_distance`, agent position and draw stream. -/
theorem reset_opponent_static_override (minD rx ry : ℝ) (draws : List Pose)
    (p : Pose)
    (h : resetOpponentPose (some .static_stationary) minD rx ry draws = some p) :
    p = ⟨0, -5, 0⟩ := by
  unfold resetOpponentPose at h
  by_cases hm : 0 < minD
  · rw [if_pos hm] at h
    rcases hl : spawnLoop minD rx ry draws with _ | p'
    · rw [hl] at h; cases h
    · rw [hl] at h
      dsimp only at h
      rw [if_pos rfl] at h
      cases h
      rfl
  · rw [if_neg hm] at h; cases h

/-- Witness for C5 at a concrete reset with `min_spawn_distance = 1`. -/
theorem reset_opponent_static_override_witness :
    resetOpponentPose (some .static_stationary) 1 0 0 [⟨3, 4, 0⟩] =
      some ⟨0, -5, 0⟩ ∧ (Pose.mk 0 (-5) 0) = ⟨0, -5, 0⟩ := by
  have heval : resetOpponentPose (some .static_stationary) 1 0 0 [⟨3, 4, 0⟩] =
      some ⟨0, -5, 0⟩ := by
    unfold resetOpponentPose
    rw [if_pos (by norm_num : (0 : ℝ) < 1), spawnLoop_concrete]
    rfl
  exact ⟨heval,
    reset_opponent_static_override 1 0 0 [⟨3, 4, 0⟩] ⟨0, -5, 0⟩ heval⟩

/-- C10: the spawn loop's distance accumulator starts at `0`, so for every
configuration with `min_spawn_distance ≤ 0` the loop body never runs, the
local `pose` variable is never assigned, and `reset_opponent` fails (for every
policy, including `static_stationary`) before any pose is written. -/
theorem reset_opponent_requires_positive_min (policy : Option OppPolicy)
    (minD rx ry : ℝ) (draws : List Pose) (h : minD ≤ 0) :
    resetOpponentPose policy minD rx ry draws = none := by
  unfold resetOpponentPose
  rw [if_neg (not_lt.mpr h)]

/-- Witness for C10 at `min_spawn_distance = 0` with the static policy and a
nonempty draw stream. -/
theorem reset_opponent_requires_positive_min_witness :
    (0 : ℝ) ≤ 0 ∧
    resetOpponentPose (some .static_stationary) 0 0 0 [⟨1, 1, 0⟩] = none :=
  ⟨le_refl 0,
    reset_opponent_requires_positive_min (some .static_stationary) 0 0 0
      [⟨1, 1, 0⟩] (le_refl 0)⟩

/-- C6 counterexample: with probabilities `(0.1, 0.45, 0.4)` (summing to
`0.95 ≤ 1`) and the draw `0.99`, `sample_opponent_policy` assigns nothing: an
unset policy stays unset and the previous episode's policy is silently kept. -/
theorem sample_opponent_policy_cex :
    sampleOpponentPolicy 0.1 0.45 0.4 0.99 none = none ∧
    sampleOpponentPolicy 0.1 0.45 0.4 0.99 (some .stationary) =
      some .stationary := by
  constructor <;>
    · unfold sampleOpponentPolicy
      rw [if_neg (by norm_num), if_neg (by norm_num), if_neg (by norm_num)]

/-- C6 (amended): on every reset whose policy draw falls below
`p0 + p1 + p2`, the policy is freshly assigned one of the three variants
`static_stationary`, `stationary`, `random` — independently of the previous
episode's policy — before the spawn pose is placed, and the spawn placement
uses that freshly sampled policy; when the draw falls in the dead zone beyond
the sum (possible whenever the probabilities sum to less than 1), the previous
policy (or the unset state) silently persists. -/
theorem reset_opponent_policy_fresh (p0 p1 p2 r : ℝ) (prev : Option OppPolicy)
    (minD rx ry : ℝ) (draws : List Pose) (hr : r < p0 + p1 + p2) :
    ∃ v : OppPolicy,
      (v = .static_stationary ∨ v = .stationary ∨ v = .random) ∧
      sampleOpponentPolicy p0 p1 p2 r none = some v ∧
      resetOpponent p0 p1 p2 r prev minD rx ry draws =
        (some v, resetOpponentPose (some v) minD rx ry draws) := by
  unfold resetOpponent sampleOpponentPolicy
  by_cases h0 : r < p0
  · exact ⟨.static_stationary, Or.inl rfl, by rw [if_pos h0], by rw [if_pos h0]⟩
  · by_cases h1 : r < p0 + p1
    · exact ⟨.stationary, Or.inr (Or.inl rfl),
        by rw [if_neg h0, if_pos h1], by rw [if_neg h0, if_pos h1]⟩
    · exact ⟨.random, Or.inr (Or.inr rfl),
        by rw [if_neg h0, if_neg h1, if_pos hr],
        by rw [if_neg h0, if_neg h1, if_pos hr]⟩

/-- Witness for C6's amended theorem with the default probabilities
`(0.1, 0.45, 0.45)` and draw `0.5` (which selects `stationary`). -/
theorem reset_opponent_policy_fresh_witness :
    (0.5 : ℝ) < 0.1 + 0.45 + 0.45 ∧
    ∃ v : OppPolicy,
      (v = .static_stationary ∨ v = .stationary ∨ v = .random) ∧
      sampleOpponentPolicy 0.1 0.45 0.45 0.5 none = some v ∧
      resetOpponent 0.1 0.45 0.45 0.5 (some .random) 2 0 0 [] =
        (some v, resetOpponentPose (some v) 2 0 0 []) :=
  ⟨by norm_num,
    reset_opponent_policy_fresh 0.1 0.45 0.45 0.5 (some .random) 2 0 0 []
      (by norm_num)⟩

/-- Outcome of a fallible call: `ok` the computed pose, or `error` for a
raised Python exception. -/
def exceptOk : Except Unit Pose → Bool
  | .ok _ => true
  | .error _ => false

/-- Embedding of `move_opponent`'s arity check: `assert len(vel) == 2` raises
unless the velocity command has exactly two components. -/
def moveOpponentVel (vel : List ℝ) (pose : Pose) : Except Unit Pose :=
  match vel with
  | [l, a] => Except.ok (moveOpponent pose l a)
  | _ => Except.error ()

/-- Embedding of `ChallengeOpponent.update_opponent_state` (`tick`): the two
stationary policies command zero velocity, `random` commands the current
2-component noise sample, an unrecognized policy raises
`NotImplementedError` and an unset `opponent_policy` attribute raises
`AttributeError`; the chosen command is then passed to `move_opponent`. -/
def updateOpponentState (policy : Option OppPolicy) (noise : ℝ × ℝ)
    (pose : Pose) : Except Unit Pose :=
  match policy with
  | none => Except.error ()
  | some .stationary => moveOpponentVel [0, 0] pose
  | some .static_stationary => moveOpponentVel [0, 0] pose
  | some .random => moveOpponentVel [noise.1, noise.2] pose
  | some .unrecognized => Except.error ()

/-- C7: a tick raises whenever the opponent policy is unset or unrecognized,
the integrator raises whenever the velocity command does not have exactly two
components, and ticks with a valid policy (and integrator calls with a
two-component command) never raise. -/
theorem tick_error_handling (noise : ℝ × ℝ) (pose : Pose) (vel : List ℝ) :
    exceptOk (updateOpponentState none noise pose) = false ∧
    exceptOk (updateOpponentState (some .unrecognized) noise pose) = false ∧
    (vel.length ≠ 2 → exceptOk (moveOpponentVel vel pose) = false) ∧
    (∀ q : OppPolicy, q ≠ OppPolicy.unrecognized →
      exceptOk (updateOpponentState (some q) noise pose) = true) ∧
    (vel.length = 2 → exceptOk (moveOpponentVel vel pose) = true) := by
  refine ⟨rfl, rfl, ?_, ?_, ?_⟩
  · intro hlen
    match vel with
    | [] => rfl
    | [a] => rfl
    | [a, b] => simp at hlen
    | a :: b :: c :: rest => rfl
  · intro q hq
    cases q with
    | static_stationary => rfl
    | stationary => rfl
    | random => rfl
    | unrecognized => exact absurd rfl hq
  · intro hlen
    match vel with
    | [a, b] => rfl

/-- Witness for C7 at concrete commands: a three-component command raises, a
two-component command with the `random` policy does not. -/
theorem tick_error_handling_witness :
    ([(1 : ℝ), 2, 3].length ≠ 2 ∧
      exceptOk (moveOpponentVel [(1 : ℝ), 2, 3] ⟨0, 0, 0⟩) = false) ∧
    (OppPolicy.random ≠ OppPolicy.unrecognized ∧
      exceptOk (updateOpponentState (some .random) (0, 0) ⟨0, 0, 0⟩) = true) ∧
    ([(1 : ℝ), 2].length = 2 ∧
      exceptOk (moveOpponentVel [(1 : ℝ), 2] ⟨0, 0, 0⟩) = true) :=
  ⟨⟨by simp, (tick_error_handling (0, 0) ⟨0, 0, 0⟩ [1, 2, 3]).2.2.1 (by simp)⟩,
    ⟨by decide, ((tick_error_handling (0, 0) ⟨0, 0, 0⟩ [1, 2, 3]).2.2.2.1
      OppPolicy.random (by decide))⟩,
    ⟨by simp, (tick_error_handling (0, 0) ⟨0, 0, 0⟩ [1, 2]).2.2.2.2 (by simp)⟩⟩

/-- Minimum of `f` over indices `0, …, N-1` (numpy `np.min` of a length-`N`
array given by its entries). -/
def finMin (N : ℕ) (f : ℕ → ℝ) : ℝ :=
  if h : N ≠ 0 then (Finset.range N).inf' (Finset.nonempty_range_iff.mpr h) f
  else 0

/-- Maximum of `f` over indices `0, …, N-1`. -/
def finMax (N : ℕ) (f : ℕ → ℝ) : ℝ :=
  if h : N ≠ 0 then (Finset.range N).sup' (Finset.nonempty_range_iff.mpr h) f
  else 0

theorem finMin_le {N k : ℕ} (f : ℕ → ℝ) (hk : k < N) : finMin N f ≤ f k := by
  unfold finMin
  rw [dif_pos (show N ≠ 0 by omega)]
  exact Finset.inf'_le f (Finset.mem_range.mpr hk)

theorem le_finMax {N k : ℕ} (f : ℕ → ℝ) (hk : k < N) : f k ≤ finMax N f := by
  unfold finMax
  rw [dif_pos (show N ≠ 0 by omega)]
  exact Finset.le_sup' f (Finset.mem_range.mpr hk)

/-- Embedding of `HeightField._compute_rough_terrain`: the uniform draw `u`
(an `n×n` array given by its entries) is min-max normalized and affinely
mapped with `scalar = 0.08`, `offset = 0.02`. -/
def roughPatch (n : ℕ) (u : ℕ → ℕ → ℝ) (i j : ℕ) : ℝ :=
  (u i j - finMin n fun a => finMin n (u a)) /
      ((finMax n fun a => finMax n (u a)) - finMin n fun a => finMin n (u a)) *
    0.08 - 0.02

/-- Flattened sinusoidal base data of `HeightField._compute_hilly_terrain`:
`np.sin(np.linspace(0, 10·π, N) + π/2) - 1`, whose `k`-th entry is
`sin(k · 10π/(N-1) + π/2) - 1`. -/
def hillyData (N k : ℕ) : ℝ :=
  Real.sin ((k : ℝ) * (10 * π / ((N : ℝ) - 1)) + π / 2) - 1

/-- The hilly data min-max normalized and multiplied by the sampled scalar
(`N = patch_size²` entries). -/
def hillyFlat (n : ℕ) (scalar : ℝ) (k : ℕ) : ℝ :=
  (hillyData (n * n) k - finMin (n * n) (hillyData (n * n))) /
      (finMax (n * n) (hillyData (n * n)) - finMin (n * n) (hillyData (n * n))) *
    scalar

/-- Hilly patch after reshaping the scaled data to `n×n`, flipping along both
axes (entry `(a, b)` reads flattened index `(n-1-a)·n + (n-1-b)`), and — with
probability one half — a 90° rotation (`rot90 M (i, j) = M (j, n-1-i)`). -/
def hillyPatch (n : ℕ) (scalar : ℝ) (rotate : Bool) (i j : ℕ) : ℝ :=
  match rotate with
  | true => hillyFlat n scalar ((n - 1 - j) * n + (n - 1 - (n - 1 - i)))
  | false => hillyFlat n scalar ((n - 1 - i) * n + (n - 1 - j))

theorem flat_index_lt (n a b : ℕ) (hn : 0 < n) :
    (n - 1 - a) * n + (n - 1 - b) < n * n := by
  rcases n with _ | m
  · omega
  · have h1 : (m + 1 - 1 - a) * (m + 1) ≤ m * (m + 1) :=
      Nat.mul_le_mul_right (m + 1) (by omega)
    have h2 : m + 1 - 1 - b ≤ m := by omega
    have h3 : (m + 1) * (m + 1) = m * (m + 1) + (m + 1) := by ring
    omega

theorem hillyData_zero (N : ℕ) : hillyData N 0 = 0 := by
  unfold hillyData
  rw [Nat.cast_zero, zero_mul, zero_add, Real.sin_pi_div_two]
  ring

theorem hilly_min_lt_max {n : ℕ} (hn : 2 ≤ n) :
    finMin (n * n) (hillyData (n * n)) < finMax (n * n) (hillyData (n * n)) := by
  have hN : 4 ≤ n * n := Nat.mul_le_mul hn hn
  have hcast : (4 : ℝ) ≤ ((n * n : ℕ) : ℝ) := by exact_mod_cast hN
  have hden : (0 : ℝ) < ((n * n : ℕ) : ℝ) - 1 := by linarith
  have hpi := Real.pi_pos
  have h1eq : hillyData (n * n) 1 =
      Real.cos (10 * π / (((n * n : ℕ) : ℝ) - 1)) - 1 := by
    unfold hillyData
    rw [Nat.cast_one, one_mul, Real.sin_add_pi_div_two]
  have hθpos : 0 < 10 * π / (((n * n : ℕ) : ℝ) - 1) :=
    div_pos (by positivity) hden
  have hcos : Real.cos (10 * π / (((n * n : ℕ) : ℝ) - 1)) < 1 := by
    rcases lt_or_eq_of_le (Real.cos_le_one (10 * π / (((n * n : ℕ) : ℝ) - 1)))
      with h | h
    · exact h
    · exfalso
      obtain ⟨m, hm⟩ := (Real.cos_eq_one_iff _).mp h
      have hmpos : (0 : ℝ) < (m : ℝ) := by nlinarith
      have hm1 : (1 : ℝ) ≤ (m : ℝ) := by
        have h0 : (0 : ℤ) < m := by exact_mod_cast hmpos
        have h1 : (1 : ℤ) ≤ m := h0
        exact_mod_cast h1
      have h2 : (m : ℝ) * (2 * π) * (((n * n : ℕ) : ℝ) - 1) = 10 * π := by
        rw [hm, div_mul_cancel₀ _ hden.ne']
      have hfact : ((m : ℝ) * (((n * n : ℕ) : ℝ) - 1) - 5) * (2 * π) = 0 := by
        linear_combination h2
      have hkey : (m : ℝ) * (((n * n : ℕ) : ℝ) - 1) = 5 := by
        rcases mul_eq_zero.mp hfact with h' | h'
        · linarith
        · exfalso; nlinarith
      have hm2 : (m : ℝ) < 2 := by
        by_contra hc
        push_neg at hc
        have h6 : 2 * (((n * n : ℕ) : ℝ) - 1) ≤
            (m : ℝ) * (((n * n : ℕ) : ℝ) - 1) :=
          mul_le_mul_of_nonneg_right hc (le_of_lt hden)
        linarith
      have hmeq : m = 1 := by
        have ha : (1 : ℤ) ≤ m := by exact_mod_cast hm1
        have hb : (m : ℤ) < 2 := by exact_mod_cast hm2
        omega
      rw [hmeq, Int.cast_one, one_mul] at hkey
      have hN6 : ((n * n : ℕ) : ℝ) = 6 := by linarith
      have hn6 : n * n = 6 := by exact_mod_cast hN6
      rcases Nat.lt_or_ge n 3 with h3 | h3
      · have : n = 2 := by omega
        rw [this] at hn6
        omega
      · have h9 : 9 ≤ n * n := Nat.mul_le_mul h3 h3
        rw [hn6] at h9
        omega
  have hd1 : hillyData (n * n) 1 < hillyData (n * n) 0 := by
    rw [hillyData_zero, h1eq]
    linarith
  calc finMin (n * n) (hillyData (n * n)) ≤ hillyData (n * n) 1 :=
        finMin_le _ (by omega)
    _ < hillyData (n * n) 0 := hd1
    _ ≤ finMax (n * n) (hillyData (n * n)) := le_finMax _ (by omega)

theorem hillyFlat_bounds {n : ℕ} (scalar : ℝ) {k : ℕ} (hn : 2 ≤ n)
    (hk : k < n * n) (hs : 0 ≤ scalar) :
    0 ≤ hillyFlat n scalar k ∧ hillyFlat n scalar k ≤ scalar := by
  have hlt := hilly_min_lt_max hn
  have hlo := finMin_le (hillyData (n * n)) hk
  have hhi := le_finMax (hillyData (n * n)) hk
  unfold hillyFlat
  have ht0 : 0 ≤ (hillyData (n * n) k - finMin (n * n) (hillyData (n * n))) /
      (finMax (n * n) (hillyData (n * n)) - finMin (n * n) (hillyData (n * n))) :=
    div_nonneg (by linarith) (by linarith)
  have ht1 : (hillyData (n * n) k - finMin (n * n) (hillyData (n * n))) /
      (finMax (n * n) (hillyData (n * n)) - finMin (n * n) (hillyData (n * n))) ≤
      1 :=
    (div_le_one (by linarith)).mpr (by linarith)
  constructor
  · exact mul_nonneg ht0 hs
  · calc _ ≤ 1 * scalar := mul_le_mul_of_nonneg_right ht1 hs
      _ = scalar := one_mul scalar

/-- C8: given a rough patch whose uniform draw is not constant, every value of
the generated rough patch lies in `[-0.02, 0.06]`; and every value of a
generated hilly patch (patch size at least 2) lies in `[0, scalar]`, where
`scalar` is that call's uniform draw from `[0.03, 0.23]`. -/
theorem terrain_patch_bounds (n : ℕ) (u : ℕ → ℕ → ℝ) (scalar : ℝ)
    (rotate : Bool) (i j : ℕ) (hilt : i < n) (hjlt : j < n)
    (hne : ∃ a b c d, a < n ∧ b < n ∧ c < n ∧ d < n ∧ u a b ≠ u c d)
    (hs1 : 0.03 ≤ scalar) (hs2 : scalar ≤ 0.23) (hn : 2 ≤ n) :
    (-0.02 ≤ roughPatch n u i j ∧ roughPatch n u i j ≤ 0.06) ∧
    (0 ≤ hillyPatch n scalar rotate i j ∧
      hillyPatch n scalar rotate i j ≤ scalar) := by
  constructor
  · obtain ⟨a, b, c, d, ha, hb, hc, hd, hne⟩ := hne
    have key : ∀ x y, x < n → y < n →
        (finMin n fun p => finMin n (u p)) ≤ u x y ∧
        u x y ≤ finMax n fun p => finMax n (u p) := by
      intro x y hx hy
      exact ⟨le_trans (finMin_le (fun p => finMin n (u p)) hx)
          (finMin_le (u x) hy),
        le_trans (le_finMax (u x) hy)
          (le_finMax (fun p => finMax n (u p)) hx)⟩
    have hltlohi : (finMin n fun p => finMin n (u p)) <
        finMax n fun p => finMax n (u p) := by
      rcases lt_or_le (finMin n fun p => finMin n (u p))
          (finMax n fun p => finMax n (u p)) with h | h
      · exact h
      · exfalso
        apply hne
        have h1 := key a b ha hb
        have h2 := key c d hc hd
        have e1 : u a b = finMin n fun p => finMin n (u p) :=
          le_antisymm (by linarith [h1.2]) h1.1
        have e2 : u c d = finMin n fun p => finMin n (u p) :=
          le_antisymm (by linarith [h2.2]) h2.1
        rw [e1, e2]
    have hk := key i j hilt hjlt
    have ht0 : 0 ≤ (u i j - finMin n fun p => finMin n (u p)) /
        ((finMax n fun p => finMax n (u p)) - finMin n fun p => finMin n (u p)) :=
      div_nonneg (by linarith [hk.1]) (by linarith)
    have ht1 : (u i j - finMin n fun p => finMin n (u p)) /
        ((finMax n fun p => finMax n (u p)) - finMin n fun p => finMin n (u p)) ≤
        1 :=
      (div_le_one (by linarith)).mpr (by linarith [hk.2])
    unfold roughPatch
    constructor <;> linarith
  · have hs : (0 : ℝ) ≤ scalar := by linarith
    cases rotate with
    | true =>
      exact hillyFlat_bounds scalar hn
        (flat_index_lt n j (n - 1 - i) (by omega)) hs
    | false =>
      exact hillyFlat_bounds scalar hn
        (flat_index_lt n i j (by omega)) hs

/-- Witness for C8 at a concrete 2×2 patch: rough draw `u (a, b) = a` (not
constant), hilly scalar `0.1`, no rotation, entry `(0, 0)`. -/
theorem terrain_patch_bounds_witness :
    ((0 : ℕ) < 2 ∧ (∃ a b c d : ℕ, a < 2 ∧ b < 2 ∧ c < 2 ∧ d < 2 ∧
        (fun (x _ : ℕ) => (x : ℝ)) a b ≠ (fun (x _ : ℕ) => (x : ℝ)) c d) ∧
      (0.03 : ℝ) ≤ 0.1 ∧ (0.1 : ℝ) ≤ 0.23) ∧
    (-0.02 ≤ roughPatch 2 (fun (x _ : ℕ) => (x : ℝ)) 0 0 ∧
      roughPatch 2 (fun (x _ : ℕ) => (x : ℝ)) 0 0 ≤ 0.06) ∧
    (0 ≤ hillyPatch 2 0.1 false 0 0 ∧ hillyPatch 2 0.1 false 0 0 ≤ 0.1) := by
  have hne : ∃ a b c d : ℕ, a < 2 ∧ b < 2 ∧ c < 2 ∧ d < 2 ∧
      (fun (x _ : ℕ) => (x : ℝ)) a b ≠ (fun (x _ : ℕ) => (x : ℝ)) c d :=
    ⟨0, 0, 1, 0, by omega, by omega, by omega, by omega, by norm_num⟩
  have h := terrain_patch_bounds 2 (fun (x _ : ℕ) => (x : ℝ)) 0.1 false 0 0
    (by omega) (by omega) hne (by norm_num) (by norm_num) (by omega)
  exact ⟨⟨by omega, hne, by norm_num, by norm_num⟩, h.1, h.2⟩

/-- Rounding to two decimals, `np.round(t, 2)`.  (Numpy rounds exact ties to
even; the embedding rounds ties up — the two agree at every non-tie point, and
no statement below evaluates a tie.) -/
def round2 (t : ℝ) : ℝ := ((round (100 * t) : ℤ) : ℝ) / 100

/-- The episode time limit `self.maxTime = 20`. -/
def maxTime : ℝ := 20

/-- Inputs of the reward/termination computation performed on one step:
pelvis position, opponent planar pose, elapsed simulated time, the setup flag
and the configured win distance. -/
structure StepState where
  pelvisX : ℝ
  pelvisY : ℝ
  pelvisZ : ℝ
  oppX : ℝ
  oppY : ℝ
  time : ℝ
  startFlag : Bool
  winDistance : ℝ

/-- Embedding of `ChaseTagEnvV0._win_condition`. -/
def winCondition (s : StepState) : ℕ :=
  if planarDist s.pelvisX s.pelvisY s.oppX s.oppY ≤ s.winDistance ∧
      s.startFlag = true then 1 else 0

/-- Embedding of `ChaseTagEnvV0._lose_condition`. -/
def loseCondition (s : StepState) : ℕ :=
  if s.pelvisZ < 0.5 then 1
  else if maxTime ≤ s.time ∨ 6.5 < |s.pelvisX| ∨ 6.5 < |s.pelvisY| then 1
  else 0

/-- Embedding of `ChaseTagEnvV0._get_score`: the elapsed time is rounded to
two decimals before the time-decay formula is applied. -/
def getScore (t : ℝ) : ℝ := 1 - round2 t / maxTime

/-- The `sparse` entry of `get_reward_dict`: the score on a winning step,
`0` otherwise. -/
def sparseScore (s : StepState) : ℝ :=
  if winCondition s = 1 then getScore s.time else 0

/-- Embedding of `ChaseTagEnvV0._get_done`. -/
def getDone (s : StepState) : ℕ :=
  if loseCondition s = 1 then 1 else if winCondition s = 1 then 1 else 0

/-- C9 (amended): whenever the planar agent–opponent distance is at most
`win_distance` and the setup phase has completed, the step reports
`solved = 1` and `done = 1` and its sparse component equals
`1 - round(time, 2)/20`; on every non-winning step the sparse component is
`0`. -/
theorem step_win_report (s s' : StepState)
    (hd : planarDist s.pelvisX s.pelvisY s.oppX s.oppY ≤ s.winDistance)
    (hs : s.startFlag = true) (hw : winCondition s' = 0) :
    winCondition s = 1 ∧ getDone s = 1 ∧
    sparseScore s = 1 - round2 s.time / 20 ∧ sparseScore s' = 0 := by
  have hwin : winCondition s = 1 := by
    unfold winCondition
    rw [if_pos ⟨hd, hs⟩]
  refine ⟨hwin, ?_, ?_, ?_⟩
  · unfold getDone
    rcases eq_or_ne (loseCondition s) 1 with h | h
    · rw [if_pos h]
    · rw [if_neg h, if_pos hwin]
  · unfold sparseScore
    rw [if_pos hwin]
    unfold getScore maxTime
    ring
  · unfold sparseScore
    rw [if_neg (by rw [hw]; exact Nat.zero_ne_one)]

/-- C9 counterexample: at elapsed time `0.004` a winning step's sparse score
is `1 - round(0.004, 2)/20 = 1`, not `1 - 0.004/20 = 0.9998` as the
unrounded formula would require. -/
theorem step_win_report_cex :
    winCondition ⟨0, 0, 1, 0, 0, 0.004, true, 0.5⟩ = 1 ∧
    sparseScore ⟨0, 0, 1, 0, 0, 0.004, true, 0.5⟩ ≠
      1 - (0.004 : ℝ) / 20 := by
  have hdist : planarDist 0 0 0 0 = 0 := by
    unfold planarDist
    rw [show ((0 : ℝ) - 0) ^ 2 + ((0 : ℝ) - 0) ^ 2 = 0 by norm_num]
    exact Real.sqrt_zero
  have hwin : winCondition ⟨0, 0, 1, 0, 0, 0.004, true, 0.5⟩ = 1 := by
    unfold winCondition
    rw [if_pos ⟨by rw [hdist]; norm_num, rfl⟩]
  refine ⟨hwin, ?_⟩
  unfold sparseScore
  rw [if_pos hwin]
  unfold getScore maxTime round2
  rw [show (100 : ℝ) * 0.004 = 0.4 by norm_num]
  rw [round_eq]
  norm_num

/-- Witness for C9's amended theorem: a winning step at time `1` (distance
`0`, setup complete) and a non-winning step (setup incomplete). -/
theorem step_win_report_witness :
    (planarDist 0 0 0 0 ≤ (0.5 : ℝ) ∧
      (StepState.mk 0 0 1 0 0 1 true 0.5).startFlag = true ∧
      winCondition ⟨0, 0, 1, 0, 0, 1, false, 0.5⟩ = 0) ∧
    (winCondition ⟨0, 0, 1, 0, 0, 1, true, 0.5⟩ = 1 ∧
      getDone ⟨0, 0, 1, 0, 0, 1, true, 0.5⟩ = 1 ∧
      sparseScore ⟨0, 0, 1, 0, 0, 1, true, 0.5⟩ = 1 - round2 1 / 20 ∧
      sparseScore ⟨0, 0, 1, 0, 0, 1, false, 0.5⟩ = 0) := by
  have hdist : planarDist 0 0 0 0 = 0 := by
    unfold planarDist
    rw [show ((0 : ℝ) - 0) ^ 2 + ((0 : ℝ) - 0) ^ 2 = 0 by norm_num]
    exact Real.sqrt_zero
  have hd : planarDist 0 0 0 0 ≤ (0.5 : ℝ) := by rw [hdist]; norm_num
  have hw0 : winCondition ⟨0, 0, 1, 0, 0, 1, false, 0.5⟩ = 0 := by
    unfold winCondition
    rw [if_neg]
    intro hcontra
    exact Bool.false_ne_true hcontra.2
  exact ⟨⟨hd, rfl, hw0⟩,
    step_win_report ⟨0, 0, 1, 0, 0, 1, true, 0.5⟩ ⟨0, 0, 1, 0, 0, 1, false, 0.5⟩
      hd rfl hw0⟩

/-- The two task modes of the challenge. -/
inductive Task where
  | chase
  | flee
deriving DecidableEq

/-- The `task_choice` configuration: a fixed task, or the string `random`. -/
inductive TaskChoice where
  | fixed (t : Task)
  | random
deriving DecidableEq

/-- The `reset_type` configuration: `random`, `init`, or anything else
(the default branch). -/
inductive ResetType where
  | random
  | init
  | other
deriving DecidableEq

/-- The numpy collaborator's `np.random.choice(['chase', 'flee'])`: a uniform
choice between the two entries driven by a draw `g` of the PROCESS-WIDE numpy
generator (not the threaded `self.np_random`). -/
def npRandomChoice (g : ℝ) : Task :=
  if g < 0.5 then Task.chase else Task.flee

/-- Embedding of `ChaseTagEnvV0._sample_task`: when `task_choice` is
`random`, the task is drawn through `np.random.choice`, which reads the
process-wide generator. -/
def sampleTask (choice : TaskChoice) (g : ℝ) : Task :=
  match choice with
  | .fixed t => t
  | .random => npRandomChoice g

/-- The stochastic outcome of one `ChaseTagEnvV0.reset()` call: the sampled
task, the scalar `np.random.uniform(-6, 6)` written into both planar root
coordinates by `_randomize_position_orientation` when `reset_type` is
`random` (absent otherwise), and the opponent policy/pose produced by
`reset_opponent`. -/
structure ResetOutcome where
  task : Task
  rootXY : Option ℝ
  opponent : Option OppPolicy × Option Pose

/-- Embedding of the stochastic content of `ChaseTagEnvV0.reset()`:
`envPolicyDraw` and `envPoseDraws` are realised draws of the threaded
episode-scoped generator (`self.np_random`), while `gTask` and `gPos` are
realised draws of the process-wide numpy generator (`np.random`), consumed by
`_sample_task` and `_randomize_position_orientation` respectively. -/
def envReset (tc : TaskChoice) (rt : ResetType) (p0 p1 p2 : ℝ)
    (prev : Option OppPolicy) (minD rx ry : ℝ) (envPolicyDraw : ℝ)
    (envPoseDraws : List Pose) (gTask gPos : ℝ) : ResetOutcome :=
  { task := sampleTask tc gTask
  , rootXY := if rt = ResetType.random then some gPos else none
  , opponent :=
      resetOpponent p0 p1 p2 envPolicyDraw prev minD rx ry envPoseDraws }

/-- C2 counterexample: two runs with identical threaded episode generator
draws but different process-wide generator states produce different reset
outcomes when `task_choice == 'random'` — `_sample_task` reads the
process-wide `np.random`, so an identically seeded episode generator does not
reproduce the episode. -/
theorem reset_reads_global_rng_cex :
    (envReset .random .other 0.1 0.45 0.45 none 2 0 0 0.5 [] 0.2 0).task ≠
    (envReset .random .other 0.1 0.45 0.45 none 2 0 0 0.5 [] 0.7 0).task := by
  unfold envReset sampleTask npRandomChoice
  rw [if_pos (by norm_num : (0.2 : ℝ) < 0.5),
    if_neg (by norm_num : ¬((0.7 : ℝ) < 0.5))]
  exact fun hcontra => Task.noConfusion hcontra

/-- C2 (amended): the opponent's policy sampling, spawn placement and noise
process, and the terrain generation, are driven by the threaded episode
generator alone; but `_sample_task` (when `task_choice == 'random'`) and
`_randomize_position_orientation` (when `reset_type == 'random'`) read the
process-wide numpy generator.  For every configuration that avoids those two
paths, the reset outcome — and hence the opponent pose trajectory it seeds —
is a function of the threaded generator's draws only. -/
theorem reset_deterministic_from_env_rng (tc : TaskChoice) (rt : ResetType)
    (p0 p1 p2 : ℝ) (prev : Option OppPolicy) (minD rx ry : ℝ)
    (envPolicyDraw : ℝ) (envPoseDraws : List Pose) (g1 g1' g2 g2' : ℝ)
    (htc : tc ≠ TaskChoice.random) (hrt : rt ≠ ResetType.random) :
    envReset tc rt p0 p1 p2 prev minD rx ry envPolicyDraw envPoseDraws g1 g1' =
    envReset tc rt p0 p1 p2 prev minD rx ry envPolicyDraw envPoseDraws
      g2 g2' := by
  unfold envReset
  rcases tc with t | _
  · simp only [sampleTask, if_neg hrt]
  · exact absurd rfl htc

/-- Witness for C2's amended theorem: fixed task `chase`, default reset type,
two different process-wide generator states. -/
theorem reset_deterministic_from_env_rng_witness :
    TaskChoice.fixed Task.chase ≠ TaskChoice.random ∧
    ResetType.other ≠ ResetType.random ∧
    envReset (.fixed .chase) .other 0.1 0.45 0.45 none 2 0 0 0.5 [] 0.2 0.3 =
      envReset (.fixed .chase) .other 0.1 0.45 0.45 none 2 0 0 0.5 []
        0.9 0.8 :=
  ⟨by decide, by decide,
    reset_deterministic_from_env_rng (.fixed .chase) .other 0.1 0.45 0.45 none
      2 0 0 0.5 [] 0.2 0.3 0.9 0.8 (by decide) (by decide)⟩

end ChaseTag
